import Mathlib

/-!
Shallow embedding of the FootprintViewer core of dna_features_viewer
(files genbank_creator.py, visualizer.py, data_processor.py, api.py),
with theorems settling the frozen claims about window clipping, transcript
row packing, heatmap matrix construction and color-scale reconciliation.

Conventions: Python ints are modelled as Int; float score values as
Option Rat, where `none` models NaN (not-a-number) and `some q` a numeric
value, since the only float operations involved (max, min, comparison with
0 and 5, assignment) are exact; Python dicts in insertion order are
modelled as association lists.
-/

namespace FootprintViewer

/-! ### Window clipping (genbank_creator.py, _parse_gff3_features) -/

/-- Relative start of a clipped feature:
`relative_start = max(0, feat_start - start)` (genbank_creator.py line 172). -/
def relative_start (wstart fs : Int) : Int := max 0 (fs - wstart)

/-- Relative end of a clipped feature:
`relative_end = min(end - start + 1, feat_end - start + 1)` (line 173). -/
def relative_end (wstart wend fe : Int) : Int :=
  min (wend - wstart + 1) (fe - wstart + 1)

/-- Overlap pre-check of `_parse_gff3_features` (line 165):
the record is skipped when `feat_start > end or feat_end < start`. -/
def overlapsWindow (wstart wend fs fe : Int) : Bool :=
  !(fs > wend || fe < wstart)

/-- Whether `_parse_gff3_features` emits a clipped feature for a recognized
record with numeric coordinates `(fs, fe)`: it must pass the overlap
pre-check (line 165) and satisfy `relative_end > relative_start` (line 176). -/
def emitsFeature (wstart wend fs fe : Int) : Bool :=
  overlapsWindow wstart wend fs fe &&
    decide (relative_start wstart fs < relative_end wstart wend fe)

/-! ### Transcript row packing (visualizer.py, _arrange_transcript_rows) -/

/-- A transcript span; `stop` models the `end` key of the Python range dict. -/
structure Span where
  start : Int
  stop : Int
deriving DecidableEq

/-- `transcripts_overlap` of visualizer.py line 192:
`not (t1_range[end] < t2_range[start] or t2_range[end] < t1_range[start])`. -/
def transcripts_overlap (a b : Span) : Bool :=
  !(a.stop < b.start || b.stop < a.start)

/-- A named transcript together with its span, one entry of the
`transcript_ranges` mapping. -/
abbrev TR := String × Span

/-- The inner loop of `_arrange_transcript_rows`: the candidate fits a row
when it overlaps none of the current occupants of the row. -/
def rowFits (t : TR) (row : List TR) : Bool :=
  row.all fun e => !(transcripts_overlap t.2 e.2)

/-- Place one transcript into the first fitting row, appending a new row at
the end when no existing row fits (visualizer.py lines 203-220). -/
def placeTranscript : List (List TR) → TR → List (List TR)
  | [], t => [[t]]
  | r :: rs, t => if rowFits t r then (r ++ [t]) :: rs else r :: placeTranscript rs t

/-- `_arrange_transcript_rows` (visualizer.py lines 190-222): greedy
placement of every transcript, in insertion order, into display rows. -/
def arrange_transcript_rows (ts : List TR) : List (List TR) :=
  ts.foldl placeTranscript []

/-! ### Clipping lemmas -/

theorem relative_end_le_window_length (wstart wend fe : Int) :
    relative_end wstart wend fe ≤ wend - wstart + 1 :=
  min_le_left _ _

/-- Claim C3: for every window with `start <= end` and every recognized
feature record with numeric coordinates, the extractor computes
`rel_start = max(0, feat_start - window.start)` and
`rel_end = min(window.end - window.start + 1, feat_end - window.start + 1)`,
emits the feature only if `rel_end > rel_start`, hence emits nothing for a
feature fully outside the window, emits a (clipped) feature for every
proper feature overlapping the window, and any emitted feature has
relative end at most the window length `end - start + 1`. -/
theorem window_clipping_spec (wstart wend fs fe : Int) (hw : wstart ≤ wend) :
    (relative_start wstart fs = max 0 (fs - wstart) ∧
      relative_end wstart wend fe = min (wend - wstart + 1) (fe - wstart + 1)) ∧
    (emitsFeature wstart wend fs fe = true →
      relative_start wstart fs < relative_end wstart wend fe) ∧
    ((fe < wstart ∨ fs > wend) → emitsFeature wstart wend fs fe = false) ∧
    (fs ≤ fe → overlapsWindow wstart wend fs fe = true →
      emitsFeature wstart wend fs fe = true) ∧
    (emitsFeature wstart wend fs fe = true →
      relative_end wstart wend fe ≤ wend - wstart + 1) := by
  refine ⟨⟨rfl, rfl⟩, ?_, ?_, ?_, fun _ => relative_end_le_window_length wstart wend fe⟩
  · intro h
    have h2 := (Bool.and_eq_true _ _).mp h
    exact of_decide_eq_true h2.2
  · intro h
    have : overlapsWindow wstart wend fs fe = false := by
      simp only [overlapsWindow, Bool.not_eq_false', Bool.or_eq_true, decide_eq_true_eq]
      omega
    simp [emitsFeature, this]
  · intro hfe hov
    have hov' : ¬fs > wend ∧ ¬fe < wstart := by
      simpa only [overlapsWindow, Bool.not_eq_true', Bool.or_eq_false_iff,
        decide_eq_false_iff_not] using hov
    simp only [emitsFeature, hov, Bool.true_and, decide_eq_true_eq,
      relative_start, relative_end]
    omega

/-- Witness for claim C3 at the concrete window `[100, 200]` and the feature
`[150, 250]` partially overlapping the right boundary. -/
theorem window_clipping_spec_witness :
    (relative_start 100 150 = max 0 (150 - 100) ∧
      relative_end 100 200 250 = min (200 - 100 + 1) (250 - 100 + 1)) ∧
    (emitsFeature 100 200 150 250 = true →
      relative_start 100 150 < relative_end 100 200 250) ∧
    (((250 : Int) < 100 ∨ (150 : Int) > 200) → emitsFeature 100 200 150 250 = false) ∧
    ((150 : Int) ≤ 250 → overlapsWindow 100 200 150 250 = true →
      emitsFeature 100 200 150 250 = true) ∧
    (emitsFeature 100 200 150 250 = true →
      relative_end 100 200 250 ≤ 200 - 100 + 1) :=
  window_clipping_spec 100 200 150 250 (by decide)

/-! ### Packer lemmas -/

theorem transcripts_overlap_symm (a b : Span) :
    transcripts_overlap a b = transcripts_overlap b a := by
  simp [transcripts_overlap, Bool.or_comm]

/-- The row invariant: pairwise non-overlap of all occupants. -/
abbrev rowDisjoint (row : List TR) : Prop :=
  row.Pairwise fun a b => transcripts_overlap a.2 b.2 = false

theorem rowDisjoint_append (t : TR) (row : List TR) (hd : rowDisjoint row)
    (hf : rowFits t row = true) : rowDisjoint (row ++ [t]) := by
  rw [rowDisjoint, List.pairwise_append]
  refine ⟨hd, List.pairwise_singleton _ _, ?_⟩
  intro a ha b hb
  rw [List.mem_singleton] at hb
  subst hb
  have h1 := (List.all_eq_true.mp hf) a ha
  rw [transcripts_overlap_symm]
  simpa using h1

theorem placeTranscript_disjoint (rows : List (List TR)) (t : TR) :
    (∀ r ∈ rows, rowDisjoint r) →
    ∀ r ∈ placeTranscript rows t, rowDisjoint r := by
  induction rows with
  | nil =>
    intro _ r hr
    simp only [placeTranscript, List.mem_singleton] at hr
    subst hr
    exact List.pairwise_singleton _ _
  | cons r0 rs ih =>
    intro h r hr
    simp only [placeTranscript] at hr
    by_cases hf : rowFits t r0 = true
    · rw [if_pos hf] at hr
      rcases List.mem_cons.mp hr with h1 | h2
      · subst h1
        exact rowDisjoint_append t r0 (h r0 (List.mem_cons_self _ _)) hf
      · exact h r (List.mem_cons_of_mem _ h2)
    · rw [if_neg hf] at hr
      rcases List.mem_cons.mp hr with h1 | h2
      · subst h1
        exact h _ (List.mem_cons_self _ _)
      · exact ih (fun x hx => h x (List.mem_cons_of_mem _ hx)) r h2

theorem foldl_place_disjoint (ts : List TR) (rows : List (List TR))
    (h : ∀ r ∈ rows, rowDisjoint r) :
    ∀ r ∈ ts.foldl placeTranscript rows, rowDisjoint r := by
  induction ts generalizing rows with
  | nil => simpa using h
  | cons t ts ih => exact ih _ (placeTranscript_disjoint rows t h)

/-- Claim C2: row invariant of the packer — in every row of the sequence
returned by `_arrange_transcript_rows`, any two distinct transcripts placed
in the same row have non-overlapping spans under the closed-interval test
`not (a.end < b.start or b.end < a.start)`. -/
theorem packer_same_row_no_overlap (ts : List TR) (row : List TR)
    (hrow : row ∈ arrange_transcript_rows ts) (a b : TR)
    (ha : a ∈ row) (hb : b ∈ row) (hab : a ≠ b) :
    transcripts_overlap a.2 b.2 = false := by
  have hd : rowDisjoint row := foldl_place_disjoint ts [] (by simp) row hrow
  have hsym : Symmetric fun x y : TR => transcripts_overlap x.2 y.2 = false := by
    intro x y hxy
    rw [transcripts_overlap_symm]
    exact hxy
  exact List.Pairwise.forall hsym hd ha hb hab

/-- Witness for claim C2: the two transcripts the packer puts in one row for
the concrete input spans (0,5) and (10,20) indeed do not overlap. -/
theorem packer_same_row_no_overlap_witness :
    transcripts_overlap ⟨0, 5⟩ ⟨10, 20⟩ = false :=
  packer_same_row_no_overlap
    [("A", ⟨0, 5⟩), ("B", ⟨10, 20⟩)] [("A", ⟨0, 5⟩), ("B", ⟨10, 20⟩)]
    (by decide) ("A", ⟨0, 5⟩) ("B", ⟨10, 20⟩) (by decide) (by decide) (by decide)

/-! ### Single-row packing of disjoint inputs (claim C7) -/

theorem foldl_place_single_row (ts : List TR) (r : List TR)
    (hfit : ∀ t ∈ ts, rowFits t r = true) (hd : rowDisjoint ts) :
    ts.foldl placeTranscript [r] = [r ++ ts] := by
  induction ts generalizing r with
  | nil => simp
  | cons t ts ih =>
    have hf : rowFits t r = true := hfit t (List.mem_cons_self _ _)
    have step : placeTranscript [r] t = [r ++ [t]] := by
      simp [placeTranscript, hf]
    rw [List.foldl_cons, step]
    have hd' := List.pairwise_cons.mp hd
    have hfit' : ∀ x ∈ ts, rowFits x (r ++ [t]) = true := by
      intro x hx
      have hx2 : transcripts_overlap x.2 t.2 = false := by
        rw [transcripts_overlap_symm]
        exact hd'.1 x hx
      have hxr : rowFits x r = true := hfit x (List.mem_cons_of_mem _ hx)
      simp only [rowFits, List.all_append] at hxr ⊢
      simp [hxr, hx2]
    rw [ih (r ++ [t]) hfit' hd'.2, List.append_assoc]
    rfl

/-- Counterexample to claim C7 as stated: the empty mapping has pairwise
non-overlapping spans vacuously, yet the packer returns zero rows
rather than exactly one row. -/
theorem packer_empty_input_no_row :
    (arrange_transcript_rows ([] : List TR)).length ≠ 1 := by decide

/-- Claim C7 (amended): for every NON-EMPTY input mapping whose transcript
spans are pairwise non-overlapping under the closed-interval test, the
packer returns exactly one row containing all transcripts in insertion
order; since the statement quantifies over every ordering of the set, the
single-row outcome is order-independent in the no-overlap case. -/
theorem packer_disjoint_single_row (ts : List TR) (hne : ts ≠ [])
    (hd : rowDisjoint ts) :
    arrange_transcript_rows ts = [ts] := by
  match ts, hne with
  | t :: ts, _ =>
    rw [arrange_transcript_rows, List.foldl_cons]
    have step : placeTranscript [] t = [[t]] := rfl
    rw [step]
    have hd' := List.pairwise_cons.mp hd
    have hfit : ∀ x ∈ ts, rowFits x [t] = true := by
      intro x hx
      have hx2 : transcripts_overlap x.2 t.2 = false := by
        rw [transcripts_overlap_symm]
        exact hd'.1 x hx
      simp [rowFits, hx2]
    rw [foldl_place_single_row ts [t] hfit hd'.2]
    rfl

/-- Witness for claim C7: spans (100,200) and (250,300) give the single row
["A", "B"] in insertion order, and a single row again in reverse order. -/
theorem packer_disjoint_single_row_witness :
    arrange_transcript_rows [("A", ⟨100, 200⟩), ("B", ⟨250, 300⟩)] =
      [[("A", ⟨100, 200⟩), ("B", ⟨250, 300⟩)]] ∧
    arrange_transcript_rows [("B", ⟨250, 300⟩), ("A", ⟨100, 200⟩)] =
      [[("B", ⟨250, 300⟩), ("A", ⟨100, 200⟩)]] :=
  ⟨packer_disjoint_single_row _ (by decide) (by decide),
   packer_disjoint_single_row _ (by decide) (by decide)⟩

/-- Claim C8: the packer is a deterministic function of the ordered input,
and there exists a set of transcript spans with two insertion orders on
which it produces a different number of rows. -/
theorem packer_order_sensitivity :
    (∀ ts1 ts2 : List TR, ts1 = ts2 →
      arrange_transcript_rows ts1 = arrange_transcript_rows ts2) ∧
    ∃ l1 l2 : List TR, l1.Perm l2 ∧
      (arrange_transcript_rows l1).length ≠ (arrange_transcript_rows l2).length := by
  refine ⟨fun ts1 ts2 h => h ▸ rfl, ?_⟩
  refine ⟨[("a", ⟨0, 2⟩), ("b", ⟨1, 4⟩), ("c", ⟨3, 6⟩), ("d", ⟨5, 7⟩)],
          [("a", ⟨0, 2⟩), ("d", ⟨5, 7⟩), ("b", ⟨1, 4⟩), ("c", ⟨3, 6⟩)], ?_, by decide⟩
  refine List.Perm.cons _ ?_
  have h1 : List.Perm [("c", (⟨3, 6⟩ : Span)), ("d", ⟨5, 7⟩)]
      [("d", ⟨5, 7⟩), ("c", ⟨3, 6⟩)] := List.Perm.swap _ _ _
  have h2 : List.Perm [("b", (⟨1, 4⟩ : Span)), ("c", ⟨3, 6⟩), ("d", ⟨5, 7⟩)]
      [("b", ⟨1, 4⟩), ("d", ⟨5, 7⟩), ("c", ⟨3, 6⟩)] := List.Perm.cons _ h1
  have h3 : List.Perm [("b", (⟨1, 4⟩ : Span)), ("d", ⟨5, 7⟩), ("c", ⟨3, 6⟩)]
      [("d", ⟨5, 7⟩), ("b", ⟨1, 4⟩), ("c", ⟨3, 6⟩)] := List.Perm.swap _ _ _
  exact h2.trans h3

/-- Witness for claim C8, instantiating the determinism conjunct at a
concrete one-element input. -/
theorem packer_order_sensitivity_witness :
    arrange_transcript_rows [("a", ⟨0, 2⟩)] = arrange_transcript_rows [("a", ⟨0, 2⟩)] :=
  packer_order_sensitivity.1 [("a", ⟨0, 2⟩)] [("a", ⟨0, 2⟩)] rfl

/-! ### Packing is an order-preserving partition (claim C9) -/

theorem flatten_placeTranscript (rows : List (List TR)) (t : TR) :
    (placeTranscript rows t).flatten.Perm (rows.flatten ++ [t]) := by
  induction rows with
  | nil => simp [placeTranscript]
  | cons r rs ih =>
    by_cases hf : rowFits t r = true
    · simp only [placeTranscript, if_pos hf, List.flatten_cons]
      rw [List.append_assoc, List.append_assoc]
      exact List.Perm.append_left r (@List.perm_append_comm _ [t] rs.flatten)
    · simp only [placeTranscript, if_neg hf, List.flatten_cons]
      rw [List.append_assoc]
      exact List.Perm.append_left r ih

theorem flatten_foldl_place (ts : List TR) (rows : List (List TR)) :
    ((ts.foldl placeTranscript rows).flatten).Perm (rows.flatten ++ ts) := by
  induction ts generalizing rows with
  | nil => simp
  | cons t ts ih =>
    rw [List.foldl_cons]
    have h1 := ih (placeTranscript rows t)
    have h2 : ((placeTranscript rows t).flatten ++ ts).Perm ((rows.flatten ++ [t]) ++ ts) :=
      (flatten_placeTranscript rows t).append_right ts
    have h3 := h1.trans h2
    rw [List.append_assoc] at h3
    simpa using h3

theorem placeTranscript_sublist (rows : List (List TR)) (t : TR) (l : List TR) :
    (∀ r ∈ rows, r.Sublist l) →
    ∀ r ∈ placeTranscript rows t, r.Sublist (l ++ [t]) := by
  induction rows with
  | nil =>
    intro _ r hr
    simp only [placeTranscript, List.mem_singleton] at hr
    subst hr
    exact List.sublist_append_right l [t]
  | cons r0 rs ih =>
    intro h r hr
    simp only [placeTranscript] at hr
    by_cases hf : rowFits t r0 = true
    · rw [if_pos hf] at hr
      rcases List.mem_cons.mp hr with h1 | h2
      · subst h1
        exact (h r0 (List.mem_cons_self _ _)).append (List.Sublist.refl [t])
      · exact (h r (List.mem_cons_of_mem _ h2)).trans (List.sublist_append_left l [t])
    · rw [if_neg hf] at hr
      rcases List.mem_cons.mp hr with h1 | h2
      · subst h1
        exact (h _ (List.mem_cons_self _ _)).trans (List.sublist_append_left l [t])
      · exact ih (fun x hx => h x (List.mem_cons_of_mem _ hx)) r h2

theorem foldl_place_sublist (ts : List TR) (rows : List (List TR)) (l : List TR)
    (h : ∀ r ∈ rows, r.Sublist l) :
    ∀ r ∈ ts.foldl placeTranscript rows, r.Sublist (l ++ ts) := by
  induction ts generalizing rows l with
  | nil => simpa using h
  | cons t ts ih =>
    rw [List.foldl_cons]
    have h' := placeTranscript_sublist rows t l h
    have := ih (placeTranscript rows t) (l ++ [t]) h'
    simpa [List.append_assoc] using this

theorem placeTranscript_ne_nil (rows : List (List TR)) (t : TR) :
    placeTranscript rows t ≠ [] := by
  cases rows with
  | nil => simp [placeTranscript]
  | cons r rs =>
    by_cases hf : rowFits t r = true <;> simp [placeTranscript, hf]

theorem foldl_place_ne_nil (ts : List TR) (rows : List (List TR))
    (h : rows ≠ [] ∨ ts ≠ []) :
    ts.foldl placeTranscript rows ≠ [] := by
  induction ts generalizing rows with
  | nil =>
    have : rows ≠ [] := h.resolve_right (by simp)
    simpa using this
  | cons t ts ih =>
    rw [List.foldl_cons]
    exact ih (placeTranscript rows t) (Or.inl (placeTranscript_ne_nil rows t))

theorem placeTranscript_mem_ne_nil (rows : List (List TR)) (t : TR) :
    (∀ r ∈ rows, r ≠ []) →
    ∀ r ∈ placeTranscript rows t, r ≠ [] := by
  induction rows with
  | nil =>
    intro _ r hr
    simp only [placeTranscript, List.mem_singleton] at hr
    subst hr
    simp
  | cons r0 rs ih =>
    intro h r hr
    simp only [placeTranscript] at hr
    by_cases hf : rowFits t r0 = true
    · rw [if_pos hf] at hr
      rcases List.mem_cons.mp hr with h1 | h2
      · subst h1
        simp
      · exact h r (List.mem_cons_of_mem _ h2)
    · rw [if_neg hf] at hr
      rcases List.mem_cons.mp hr with h1 | h2
      · subst h1
        exact h _ (List.mem_cons_self _ _)
      · exact ih (fun x hx => h x (List.mem_cons_of_mem _ hx)) r h2

theorem foldl_place_mem_ne_nil (ts : List TR) (rows : List (List TR))
    (h : ∀ r ∈ rows, r ≠ []) :
    ∀ r ∈ ts.foldl placeTranscript rows, r ≠ [] := by
  induction ts generalizing rows with
  | nil => simpa using h
  | cons t ts ih => exact ih _ (placeTranscript_mem_ne_nil rows t h)

/-- Claim C9: packing is a partition preserving insertion order — the
concatenation of the returned rows is a permutation of the input (each
entry, hence each name, exactly once), every row is a subsequence of the
input (relative insertion order preserved inside each row), the empty
input yields an empty row sequence, and a non-empty input yields a
non-empty row sequence all of whose rows are non-empty (in particular the
first row is non-empty). -/
theorem packer_partition (ts : List TR) :
    ((arrange_transcript_rows ts).flatten).Perm ts ∧
    ((arrange_transcript_rows ts).flatten.map Prod.fst).Perm (ts.map Prod.fst) ∧
    (∀ row ∈ arrange_transcript_rows ts, row.Sublist ts) ∧
    arrange_transcript_rows ([] : List TR) = [] ∧
    (ts ≠ [] →
      arrange_transcript_rows ts ≠ [] ∧
      ∀ row ∈ arrange_transcript_rows ts, row ≠ []) := by
  have hperm : ((arrange_transcript_rows ts).flatten).Perm ts := by
    have := flatten_foldl_place ts []
    simpa [arrange_transcript_rows] using this
  refine ⟨hperm, hperm.map Prod.fst, ?_, rfl, fun hne => ⟨?_, ?_⟩⟩
  · have := foldl_place_sublist ts [] [] (by simp)
    simpa [arrange_transcript_rows] using this
  · exact foldl_place_ne_nil ts [] (Or.inr hne)
  · exact foldl_place_mem_ne_nil ts [] (by simp)

/-- Witness for claim C9 at the one-transcript input: its row is a
subsequence of the input and the row sequence is non-empty. -/
theorem packer_partition_witness :
    List.Sublist [("A", (⟨0, 5⟩ : Span))] [("A", ⟨0, 5⟩)] ∧
    arrange_transcript_rows [("A", (⟨0, 5⟩ : Span))] ≠ [] :=
  ⟨(packer_partition [("A", ⟨0, 5⟩)]).2.2.1 _ (by decide),
   ((packer_partition [("A", ⟨0, 5⟩)]).2.2.2.2 (by decide)).1⟩

/-! ### Heatmap matrix construction (data_processor.py, create_heatmap_data) -/

/-- The heatmap matrix, indexed by (radius index, position index).
A cell holds `none` for NaN and `some q` for a numeric value; `np.zeros`
gives the all-zero default. -/
def HMat := Int → Int → Option ℚ

/-- The zero-initialized matrix `np.zeros((len(radii), region_length))`. -/
def initMat : HMat := fun _ _ => some 0

/-- A single numpy cell assignment `heatmap_data[i, j] = v`. -/
def setCell (m : HMat) (i j : Int) (v : Option ℚ) : HMat :=
  fun a b => if a = i ∧ b = j then v else m a b

/-- A long-format score record `(pos, radius, score)`; the score may be
NaN (`none`). -/
structure LongRec where
  pos : Int
  radius : Int
  score : Option ℚ

/-- Processing of one long-format record (data_processor.py lines 114-119):
compute `pos_idx = pos - start` and `radius_idx = radius - radius_range[0]`,
drop the record when either index is out of range, otherwise assign the
score to the cell — with no NaN check in this branch. -/
def fillLong (wstart wend rmin rmax : Int) (m : HMat) (r : LongRec) : HMat :=
  if 0 ≤ r.pos - wstart ∧ r.pos - wstart < wend - wstart + 1 ∧
      0 ≤ r.radius - rmin ∧ r.radius - rmin < ((rmax + 1 - rmin).toNat : Int) then
    setCell m (r.radius - rmin) (r.pos - wstart) r.score
  else m

/-- The long-format branch of `create_heatmap_data`. -/
def create_heatmap_long (wstart wend rmin rmax : Int) (recs : List LongRec) : HMat :=
  recs.foldl (fillLong wstart wend rmin rmax) initMat

/-- A wide-format record: one position and one cell per radius column;
`col r = none` models an absent column, `col r = some none` a present
column holding NaN, and `col r = some (some q)` a numeric value. -/
structure WideRow where
  pos : Int
  col : Int → Option (Option ℚ)

/-- The radii array `np.arange(radius_range[0], radius_range[1] + 1)`. -/
def radiiList (rmin rmax : Int) : List Int :=
  (List.range (rmax + 1 - rmin).toNat).map fun i => rmin + i

/-- Processing of one radius column of one wide-format record
(data_processor.py lines 103-111): skip when the column is absent, then
check the radius index range, skip when the value is NaN (`pd.notna`
fails), otherwise write the value at `[radius - rmin, pos_idx]`. -/
def fillWideAtRadius (rmin rmax pos_idx : Int) (row : WideRow) (m : HMat)
    (radius : Int) : HMat :=
  match row.col radius with
  | none => m
  | some score =>
    if 0 ≤ radius - rmin ∧ radius - rmin < ((rmax + 1 - rmin).toNat : Int) then
      match score with
      | none => m
      | some q => setCell m (radius - rmin) pos_idx (some q)
    else m

/-- Processing of one wide-format record (data_processor.py lines 98-111). -/
def fillWide (wstart wend rmin rmax : Int) (m : HMat) (row : WideRow) : HMat :=
  if 0 ≤ row.pos - wstart ∧ row.pos - wstart < wend - wstart + 1 then
    (radiiList rmin rmax).foldl (fillWideAtRadius rmin rmax (row.pos - wstart) row) m
  else m

/-- The wide-format branch of `create_heatmap_data`. -/
def create_heatmap_wide (wstart wend rmin rmax : Int) (rows : List WideRow) : HMat :=
  rows.foldl (fillWide wstart wend rmin rmax) initMat

/-! ### NaN handling (claim C4) -/

theorem foldl_preserve {α β : Type} (P : α → Prop) (f : α → β → α)
    (hf : ∀ a b, P a → P (f a b)) :
    ∀ (l : List β) (a : α), P a → P (l.foldl f a)
  | [], _, h => h
  | b :: l, a, h => foldl_preserve P f hf l (f a b) (hf a b h)

theorem setCell_numeric (m : HMat) (i j : Int) (q : ℚ)
    (h : ∀ a b, ∃ x : ℚ, m a b = some x) :
    ∀ a b, ∃ x : ℚ, setCell m i j (some q) a b = some x := by
  intro a b
  unfold setCell
  by_cases hc : a = i ∧ b = j
  · rw [if_pos hc]
    exact ⟨q, rfl⟩
  · rw [if_neg hc]
    exact h a b

theorem fillWideAtRadius_numeric (rmin rmax pos_idx : Int) (row : WideRow)
    (m : HMat) (radius : Int) (h : ∀ a b, ∃ x : ℚ, m a b = some x) :
    ∀ a b, ∃ x : ℚ, fillWideAtRadius rmin rmax pos_idx row m radius a b = some x := by
  unfold fillWideAtRadius
  rcases row.col radius with _ | sc
  · exact h
  · dsimp only
    split
    · rcases sc with _ | q
      · exact h
      · exact setCell_numeric m _ _ q h
    · exact h

theorem fillWide_numeric (wstart wend rmin rmax : Int) (m : HMat) (row : WideRow)
    (h : ∀ a b, ∃ x : ℚ, m a b = some x) :
    ∀ a b, ∃ x : ℚ, fillWide wstart wend rmin rmax m row a b = some x := by
  unfold fillWide
  split
  · exact foldl_preserve (fun mm => ∀ a b, ∃ x : ℚ, mm a b = some x) _
      (fun mm r hm => fillWideAtRadius_numeric _ _ _ row mm r hm)
      (radiiList rmin rmax) m h
  · exact h

/-- Counterexample to claim C4 as stated: in the long form a NaN score IS
written into the matrix — the record (pos 1, radius 2, NaN) on window
[1, 1] with radius range (2, 3) sets cell [0, 0] to NaN instead of the
cell keeping its previous (default 0) value. -/
theorem long_form_nan_propagates :
    create_heatmap_long 1 1 2 3 [⟨1, 2, none⟩] 0 0 = none ∧
    initMat 0 0 = some 0 := by
  constructor
  · rfl
  · rfl

/-- Claim C4 (amended): in the wide form a NaN score is skipped by the
`pd.notna` check, so no matrix cell ever holds NaN (every cell of the wide
result is numeric, keeping the default 0 where never written); in the long
form there is no NaN check, so a record with a NaN score addressing an
in-range cell writes the NaN into that cell. -/
theorem nan_handling (wstart wend rmin rmax : Int) (rows : List WideRow)
    (m : HMat) (r : LongRec)
    (hpos : 0 ≤ r.pos - wstart ∧ r.pos - wstart < wend - wstart + 1)
    (hrad : 0 ≤ r.radius - rmin ∧ r.radius - rmin < ((rmax + 1 - rmin).toNat : Int))
    (hnan : r.score = none) :
    (∀ i j, ∃ q : ℚ, create_heatmap_wide wstart wend rmin rmax rows i j = some q) ∧
    fillLong wstart wend rmin rmax m r (r.radius - rmin) (r.pos - wstart) = none := by
  constructor
  · intro i j
    exact (foldl_preserve (fun mm => ∀ a b, ∃ x : ℚ, mm a b = some x) _
      (fun mm row hm => fillWide_numeric wstart wend rmin rmax mm row hm)
      rows initMat (fun a b => ⟨0, rfl⟩)) i j
  · unfold fillLong
    rw [if_pos ⟨hpos.1, hpos.2, hrad.1, hrad.2⟩]
    unfold setCell
    rw [if_pos ⟨rfl, rfl⟩]
    exact hnan

/-- Witness for the amended claim C4 at an empty wide record set and the
concrete NaN long record (pos 1, radius 2). -/
theorem nan_handling_witness :
    (∃ q : ℚ, create_heatmap_wide 1 1 2 3 [] 0 0 = some q) ∧
    fillLong 1 1 2 3 initMat ⟨1, 2, none⟩ (2 - 2) (1 - 1) = none :=
  ⟨(nan_handling 1 1 2 3 [] initMat ⟨1, 2, none⟩ (by decide) (by decide) rfl).1 0 0,
   (nan_handling 1 1 2 3 [] initMat ⟨1, 2, none⟩ (by decide) (by decide) rfl).2⟩

/-! ### Cell addressing and last-write-wins (claim C5) -/

theorem fillLong_writes (wstart wend rmin rmax : Int) (m : HMat) (r : LongRec)
    (hpos : wstart ≤ r.pos ∧ r.pos ≤ wend)
    (hrad : rmin ≤ r.radius ∧ r.radius ≤ rmax) :
    fillLong wstart wend rmin rmax m r (r.radius - rmin) (r.pos - wstart) = r.score := by
  unfold fillLong
  rw [if_pos (by omega)]
  unfold setCell
  rw [if_pos ⟨rfl, rfl⟩]

/-- Claim C5: matrix cell addressing with last-write-wins — a long-format
record with in-range position and radius is written at matrix cell
[radius - rmin, pos - window.start] (so a record at pos = window.start and
radius = rmin lands at cell [0, 0], and one at pos = window.end lands in
column window.end - window.start, the last column); and when two records
address the same (pos, radius) cell, the later record overwrites the
earlier one. -/
theorem cell_addressing_last_write_wins (wstart wend rmin rmax : Int)
    (m : HMat) (r r1 r2 : LongRec)
    (hpos : wstart ≤ r.pos ∧ r.pos ≤ wend)
    (hrad : rmin ≤ r.radius ∧ r.radius ≤ rmax)
    (h12p : r1.pos = r2.pos) (h12r : r1.radius = r2.radius)
    (hpos2 : wstart ≤ r2.pos ∧ r2.pos ≤ wend)
    (hrad2 : rmin ≤ r2.radius ∧ r2.radius ≤ rmax) :
    fillLong wstart wend rmin rmax m r (r.radius - rmin) (r.pos - wstart) = r.score ∧
    ([r1, r2].foldl (fillLong wstart wend rmin rmax) m)
      (r2.radius - rmin) (r2.pos - wstart) = r2.score :=
  ⟨fillLong_writes wstart wend rmin rmax m r hpos hrad,
   fillLong_writes wstart wend rmin rmax
     (fillLong wstart wend rmin rmax m r1) r2 hpos2 hrad2⟩

/-- Witness for claim C5 on window [10, 12] with radius range (2, 4): the
record (pos 10, radius 2, score 3.2) lands at cell [0, 0] with value 3.2,
and two records at (pos 12, radius 3) leave the second score in the last
column (index 2). -/
theorem cell_addressing_last_write_wins_witness :
    fillLong 10 12 2 4 initMat ⟨10, 2, some 3.2⟩ (2 - 2) (10 - 10) = some 3.2 ∧
    ([⟨12, 3, some 1⟩, ⟨12, 3, some 2⟩].foldl (fillLong 10 12 2 4) initMat)
      (3 - 2) (12 - 10) = some 2 :=
  ⟨(cell_addressing_last_write_wins 10 12 2 4 initMat
      ⟨10, 2, some 3.2⟩ ⟨12, 3, some 1⟩ ⟨12, 3, some 2⟩
      (by decide) (by decide) rfl rfl (by decide) (by decide)).1,
   (cell_addressing_last_write_wins 10 12 2 4 initMat
      ⟨10, 2, some 3.2⟩ ⟨12, 3, some 1⟩ ⟨12, 3, some 2⟩
      (by decide) (by decide) rfl rfl (by decide) (by decide)).2⟩

/-! ### Color-scale reconciliation (api.py) -/

/-- The fixed colorbar cap 5.0 of api.py. -/
def CAP : ℚ := 5

/-- Maximum of a list of scores; 0 on the empty list (Python max is only
ever applied to non-empty data on the modelled paths). -/
def listMax : List ℚ → ℚ
  | [] => 0
  | x :: xs => xs.foldl max x

/-- `np.max` of a matrix, via flattening. -/
def npMax (m : List (List ℚ)) : ℚ := listMax m.flatten

/-- Per-track ceiling in the multi-track path (api.py lines 282-291): an
empty record set gives 0 (the track is `none`); otherwise
`raw_max = np.max(...) if np.max(...) > 0 else 0` and
`max_score = min(raw_max, 5.0)`. -/
def multiTrackMax (track : Option (List (List ℚ))) : ℚ :=
  match track with
  | none => 0
  | some m => min (if 0 < npMax m then npMax m else 0) CAP

/-- Combined global ceiling over the per-track ceilings (api.py lines
297-299): `raw_global_max = max(all_max_scores) if all_max_scores and
max(all_max_scores) > 0 else 1.0`, then `global_max = min(raw, 5.0)`. -/
def globalCeiling (l : List ℚ) : ℚ :=
  min (if l ≠ [] ∧ 0 < listMax l then listMax l else 1) CAP

/-- Single-track ceiling (api.py lines 52-62): an empty record set gives
1.0 directly; otherwise `raw_max = np.max(...) if np.max(...) > 0 else
1.0`, capped at 5.0. -/
def singleTrackMax (track : Option (List (List ℚ))) : ℚ :=
  match track with
  | none => 1
  | some m => min (if 0 < npMax m then npMax m else 1) CAP

theorem le_foldl_max (l : List ℚ) (a : ℚ) : a ≤ l.foldl max a := by
  induction l generalizing a with
  | nil => exact le_refl a
  | cons x xs ih => exact le_trans (le_max_left a x) (ih (max a x))

theorem foldl_max_zero (l : List ℚ) (h : ∀ x ∈ l, x = 0) : l.foldl max 0 = 0 := by
  induction l with
  | nil => rfl
  | cons x xs ih =>
    rw [List.foldl_cons, h x (List.mem_cons_self _ _), max_self]
    exact ih fun y hy => h y (List.mem_cons_of_mem _ hy)

theorem listMax_nonneg (l : List ℚ) (h : ∀ x ∈ l, 0 ≤ x) : 0 ≤ listMax l := by
  cases l with
  | nil => exact le_refl 0
  | cons x xs =>
    exact le_trans (h x (List.mem_cons_self _ _)) (le_foldl_max xs x)

theorem listMax_zero (l : List ℚ) (h : ∀ x ∈ l, x = 0) : listMax l = 0 := by
  cases l with
  | nil => rfl
  | cons x xs =>
    rw [listMax, h x (List.mem_cons_self _ _)]
    exact foldl_max_zero xs fun y hy => h y (List.mem_cons_of_mem _ hy)

/-- Claim C1: color-scale reconciliation — in the multi-track path each
per-track ceiling is min(max of its matrix, 5.0) and is 0 for an all-zero
matrix or an empty record set; the combined global ceiling is the maximum
of the per-track ceilings capped at 5.0 but defaults to 1.0 when every
per-track ceiling is zero; in the single-track path the ceiling defaults
to 1.0 for an all-zero matrix or an empty record set and is
min(max of matrix, 5.0) otherwise; per-track maxima [0, 3.2] give global
ceiling 3.2 and [0, 0] give 1.0. -/
theorem color_scale_reconciliation (m : List (List ℚ)) (l : List ℚ)
    (hm : ∀ row ∈ m, ∀ x ∈ row, 0 ≤ x) :
    multiTrackMax (some m) = min (npMax m) CAP ∧
    multiTrackMax none = 0 ∧
    ((∀ row ∈ m, ∀ x ∈ row, x = 0) → multiTrackMax (some m) = 0) ∧
    (0 < listMax l → globalCeiling l = min (listMax l) CAP) ∧
    ((∀ x ∈ l, x = 0) → globalCeiling l = 1) ∧
    singleTrackMax none = 1 ∧
    ((∀ row ∈ m, ∀ x ∈ row, x = 0) → singleTrackMax (some m) = 1) ∧
    (0 < npMax m → singleTrackMax (some m) = min (npMax m) CAP) ∧
    globalCeiling [0, 3.2] = 3.2 ∧
    globalCeiling [0, 0] = 1 := by
  have hnn : 0 ≤ npMax m := by
    apply listMax_nonneg
    intro x hx
    rcases List.mem_flatten.mp hx with ⟨row, hrow, hxr⟩
    exact hm row hrow x hxr
  have hflat : (∀ row ∈ m, ∀ x ∈ row, x = 0) → npMax m = 0 := by
    intro hz
    apply listMax_zero
    intro x hx
    rcases List.mem_flatten.mp hx with ⟨row, hrow, hxr⟩
    exact hz row hrow x hxr
  refine ⟨?_, rfl, ?_, ?_, ?_, rfl, ?_, ?_, ?_, ?_⟩
  · simp only [multiTrackMax]
    by_cases h0 : 0 < npMax m
    · rw [if_pos h0]
    · rw [if_neg h0, le_antisymm (not_lt.mp h0) hnn]
  · intro hz
    simp only [multiTrackMax]
    rw [hflat hz]
    norm_num [CAP]
  · intro hpos
    have hne : l ≠ [] := by
      intro he
      rw [he] at hpos
      exact absurd hpos (by norm_num [listMax])
    unfold globalCeiling
    rw [if_pos ⟨hne, hpos⟩]
  · intro hz
    unfold globalCeiling
    rw [listMax_zero l hz]
    norm_num [CAP]
  · intro hz
    simp only [singleTrackMax]
    rw [hflat hz]
    norm_num [CAP]
  · intro h0
    simp only [singleTrackMax]
    rw [if_pos h0]
  · have h1 : listMax [0, (3.2 : ℚ)] = 3.2 := by norm_num [listMax]
    unfold globalCeiling
    rw [h1, if_pos ⟨List.cons_ne_nil _ _, by norm_num⟩,
      min_eq_left (by norm_num [CAP])]
  · have h1 : listMax [0, (0 : ℚ)] = 0 := by norm_num [listMax]
    unfold globalCeiling
    rw [h1, if_neg (fun h => absurd h.2 (lt_irrefl 0)),
      min_eq_left (by norm_num [CAP])]

/-- Witness for claim C1 at the concrete matrix [[0, 2]] (maximum 2) and
the per-track ceiling list [0, 3.2]. -/
theorem color_scale_reconciliation_witness :
    multiTrackMax (some [[0, 2]]) = min (npMax [[0, 2]]) CAP ∧
    globalCeiling [0, 3.2] = 3.2 :=
  ⟨(color_scale_reconciliation [[0, 2]] [0, 3.2] (by norm_num)).1,
   (color_scale_reconciliation [[0, 2]] [0, 3.2] (by norm_num)).2.2.2.2.2.2.2.2.1⟩

/-! ### Parent attribute resolution (genbank_creator.py, _create_seq_feature) -/

/-- Python `str.split` with a single-character separator, over the
character list. -/
def splitChars (sep : Char) : List Char → List (List Char)
  | [] => [[]]
  | c :: cs =>
    match splitChars sep cs, decide (c = sep) with
    | rest, true => [] :: rest
    | [], false => [[c]]
    | g :: gs, false => (c :: g) :: gs

/-- Python `s.split(sep)` for a one-character separator. -/
def pySplit (s : String) (sep : Char) : List String :=
  (splitChars sep s.toList).map List.asString

/-- Python dict lookup (keys unique): the value at the first matching key. -/
def pyDictGet {α : Type} : List (String × α) → String → Option α
  | [], _ => none
  | (k0, v) :: rest, k => if k0 = k then some v else pyDictGet rest k

/-- The fallback of lines 213-214:
`parent_ids[0].split('.')[0] if '.' in parent_ids[0] else parent_ids[0]`. -/
def firstSegment (pid : String) : String :=
  if pid.toList.contains '.' then (pySplit pid '.').headD pid else pid

/-- The loop of lines 208-211: the transcript-map value of the first
Parent id found in the map, if any. -/
def findInMap : List String → List (String × String) → Option String
  | [], _ => none
  | i :: rest, tmap =>
    match pyDictGet tmap i with
    | some n => some n
    | none => findInMap rest tmap

/-- Transcript-name resolution of `_create_seq_feature` (genbank_creator.py
lines 201-214). `parentAttr` models `attr_dict.get('Parent', '')`: `none`
when the attribute is missing. A present empty value behaves like a
missing one, because the code tests the string for truthiness before
splitting. -/
def resolveTranscriptName (parentAttr : Option String)
    (transcript_map : List (String × String)) : String :=
  match parentAttr with
  | none => "Unknown"
  | some pa =>
    if pa = "" then "Unknown"
    else
      match findInMap (pySplit pa ',') transcript_map with
      | some n => n
      | none => firstSegment ((pySplit pa ',').headD "")

/-- The emitted label `f"{transcript_name}-{feature_type_label}"`
(line 218). -/
def component_label (parentAttr : Option String)
    (transcript_map : List (String × String)) (ftypeLabel : String) : String :=
  resolveTranscriptName parentAttr transcript_map ++ "-" ++ ftypeLabel

/-- The resolution procedure exactly as the claim words it: split the
Parent attribute on commas, take the map value of the first entry present
in the map, else the first segment of the first id, and "Unknown" only
when there is no Parent attribute at all. Stated for comparison with
`resolveTranscriptName`. -/
def claimResolveName (parentAttr : Option String)
    (transcript_map : List (String × String)) : String :=
  match parentAttr with
  | none => "Unknown"
  | some pa =>
    match findInMap (pySplit pa ',') transcript_map with
    | some n => n
    | none => firstSegment ((pySplit pa ',').headD "")

theorem findInMap_spec (ids : List String) (tmap : List (String × String)) :
    findInMap ids tmap =
      ((ids.find? fun i => (pyDictGet tmap i).isSome).bind
        fun i => pyDictGet tmap i) := by
  induction ids with
  | nil => rfl
  | cons i rest ih =>
    cases h : pyDictGet tmap i with
    | none =>
      simp only [findInMap, h]
      rw [ih]
      simp [List.find?, h]
    | some v =>
      simp only [findInMap, h]
      simp [List.find?, h]

/-- Counterexample to claim C6 as stated: a record whose Parent attribute
is present but EMPTY resolves to "Unknown" in the code (the string is
falsy), while the procedure described by the claim — split on commas, no
map hit, first segment of the first id — yields the empty name. -/
theorem parent_resolution_empty_attr :
    resolveTranscriptName (some "") [] = "Unknown" ∧
    claimResolveName (some "") [] = "" := ⟨rfl, rfl⟩

/-- Claim C6 (amended): the owning transcript name is the transcript-map
value of the first comma-separated Parent entry present in the map; if no
entry is in the map, the text before the first dot of the first Parent id
(the whole id when it has no dot); "Unknown" when the record has no
Parent attribute at all OR when the Parent attribute is the empty string;
and the emitted label is exactly the transcript name, a dash, and the
component type. -/
theorem parent_resolution (tmap : List (String × String)) (pa : String)
    (hne : pa ≠ "") (ids : List String) (pid ftype : String)
    (pattr : Option String) (hnd : pid.toList.contains '.' = false) :
    resolveTranscriptName none tmap = "Unknown" ∧
    resolveTranscriptName (some "") tmap = "Unknown" ∧
    resolveTranscriptName (some pa) tmap = claimResolveName (some pa) tmap ∧
    findInMap ids tmap =
      ((ids.find? fun i => (pyDictGet tmap i).isSome).bind
        fun i => pyDictGet tmap i) ∧
    firstSegment pid = pid ∧
    component_label pattr tmap ftype =
      resolveTranscriptName pattr tmap ++ "-" ++ ftype := by
  refine ⟨rfl, rfl, ?_, findInMap_spec ids tmap, ?_, rfl⟩
  · simp only [resolveTranscriptName, claimResolveName, if_neg hne]
  · rw [firstSegment, if_neg (by rw [hnd]; decide)]

/-- Witness for the amended claim C6 at the transcript map
[(t1, GeneA)], Parent attribute "t1" and a dot-free fallback id. -/
theorem parent_resolution_witness :
    resolveTranscriptName none [("t1", "GeneA")] = "Unknown" ∧
    resolveTranscriptName (some "") [("t1", "GeneA")] = "Unknown" ∧
    resolveTranscriptName (some "t1") [("t1", "GeneA")] =
      claimResolveName (some "t1") [("t1", "GeneA")] ∧
    findInMap ["x"] [("t1", "GeneA")] =
      ((["x"].find? fun i => (pyDictGet [("t1", "GeneA")] i).isSome).bind
        fun i => pyDictGet [("t1", "GeneA")] i) ∧
    firstSegment "abc" = "abc" ∧
    component_label (some "t1") [("t1", "GeneA")] "CDS" =
      resolveTranscriptName (some "t1") [("t1", "GeneA")] ++ "-" ++ "CDS" :=
  parent_resolution [("t1", "GeneA")] "t1" (by decide) ["x"] "abc" "CDS"
    (some "t1") (by decide)

/-! ### Grouping of features into transcripts by label
(visualizer.py, create_transcript_layout_visualization) -/

/-- A record feature as the layout step sees it: the optional label
qualifier, the feature type, the location bounds and the strand. -/
structure Feat where
  label : Option String
  ftype : String
  start : Int
  stop : Int
  strand : Option Int
deriving DecidableEq

/-- One collected component entry of a transcript group (the dict built at
visualizer.py lines 144-162, minus the back-pointer to the feature). -/
structure Comp where
  component_type : String
  start : Int
  stop : Int
  strand : Option Int
  label : String
deriving DecidableEq

/-- Append to the list stored at a key, inserting the key at the end when
absent (the `if name not in transcripts: [] ` plus `append` pattern of
lines 141-151). -/
def dictAppend : List (String × List Comp) → String → Comp → List (String × List Comp)
  | [], k, v => [(k, [v])]
  | (k0, vs) :: rest, k, v =>
    if k0 = k then (k0, vs ++ [v]) :: rest
    else (k0, vs) :: dictAppend rest k v

/-- Plain dict assignment `transcripts[name] = [x]` (line 155): replace in
place, or insert at the end when the key is absent. -/
def dictSet : List (String × List Comp) → String → List Comp → List (String × List Comp)
  | [], k, v => [(k, v)]
  | (k0, v0) :: rest, k, v =>
    if k0 = k then (k0, v) :: rest
    else (k0, v0) :: dictSet rest k v

/-- One step of the grouping loop (visualizer.py lines 134-162): features
without a label are skipped; a label containing a dash is split, the text
before the first dash naming the group (appended to) and `split('-')[1]`
giving the component type; a label without a dash becomes its own group,
ASSIGNED rather than appended, with the feature type as component type. -/
def processFeature (d : List (String × List Comp)) (f : Feat) :
    List (String × List Comp) :=
  match f.label with
  | none => d
  | some lab =>
    if lab.toList.contains '-' then
      dictAppend d ((pySplit lab '-').headD "")
        ⟨(pySplit lab '-').getD 1 "", f.start, f.stop, f.strand, lab⟩
    else
      dictSet d lab [⟨f.ftype, f.start, f.stop, f.strand, lab⟩]

/-- The grouping pass over all features of the record. -/
def groupTranscripts (feats : List Feat) : List (String × List Comp) :=
  feats.foldl processFeature []

theorem pyDictGet_dictSet (d : List (String × List Comp)) (k : String)
    (v : List Comp) : pyDictGet (dictSet d k v) k = some v := by
  induction d with
  | nil => simp [dictSet, pyDictGet]
  | cons kv rest ih =>
    rcases kv with ⟨k0, v0⟩
    by_cases h : k0 = k
    · simp [dictSet, h, pyDictGet]
    · simp [dictSet, h, pyDictGet, ih]

theorem pyDictGet_dictAppend (d : List (String × List Comp)) (k : String)
    (c : Comp) :
    pyDictGet (dictAppend d k c) k = some ((pyDictGet d k).getD [] ++ [c]) := by
  induction d with
  | nil => simp [dictAppend, pyDictGet]
  | cons kv rest ih =>
    rcases kv with ⟨k0, v0⟩
    by_cases h : k0 = k
    · simp [dictAppend, h, pyDictGet]
    · simp [dictAppend, h, pyDictGet, ih]

/-- Claim C10: the layout step groups features by the text before the
FIRST dash of the label, with `split('-')[1]` as component type — so the
label "A-B-CDS" is grouped under "A" with component type "B" rather than
under "A-B" with type "CDS" — and a feature whose label has no dash
REPLACES any previously collected group stored under that exact label. -/
theorem label_grouping (d : List (String × List Comp)) (f : Feat)
    (lab : String) (hl : f.label = some lab) :
    (lab.toList.contains '-' = false →
      pyDictGet (processFeature d f) lab =
        some [⟨f.ftype, f.start, f.stop, f.strand, lab⟩]) ∧
    (lab.toList.contains '-' = true →
      pyDictGet (processFeature d f) ((pySplit lab '-').headD "") =
        some ((pyDictGet d ((pySplit lab '-').headD "")).getD [] ++
          [⟨(pySplit lab '-').getD 1 "", f.start, f.stop, f.strand, lab⟩])) ∧
    groupTranscripts [⟨some "A-B-CDS", "CDS", 3, 9, some 1⟩] =
      [("A", [⟨"B", 3, 9, some 1, "A-B-CDS"⟩])] := by
  refine ⟨?_, ?_, rfl⟩
  · intro hnd
    simp only [processFeature, hl, hnd, Bool.false_eq_true, if_false]
    exact pyDictGet_dictSet d lab _
  · intro hd2
    simp only [processFeature, hl, hd2, if_true]
    exact pyDictGet_dictAppend d _ _

/-- Witness for claim C10: a dash-free label "X" replaces the previously
collected group stored under "X". -/
theorem label_grouping_witness :
    pyDictGet (processFeature [("X", [])] ⟨some "X", "gene", 0, 5, none⟩) "X" =
      some [⟨"gene", 0, 5, none, "X"⟩] :=
  (label_grouping [("X", [])] ⟨some "X", "gene", 0, 5, none⟩ "X" rfl).1 (by decide)

end FootprintViewer
